import Mathlib

/-!
Shallow embedding of the Citadel-Protocol excerpt: the HDP packet header
codec (citadel_proto/src/proto/packet.rs), the credential-format check
(citadel_user/src/misc.rs), the FCM TRUNCATE_ACK processor
(hyxe_user/src/external_services/fcm/fcm_packet_processor/truncate_ack.rs)
and the backend default method
(hyxe_user/src/backend/mod.rs, get_hyperlan_peers_with_fcm_keys_as_client).
Byte buffers are lists of naturals below 256; machine integers are Nat/Int
with explicit reductions modulo powers of two.
-/

namespace Citadel

/-- Big-endian byte encoding of `v` on `w` bytes (the `U32/U64/U128/I64
NetworkEndian` wire representation used by every multi-byte header field).
The most significant byte comes first; `v` is reduced modulo `256 ^ w`. -/
def toBE : Nat → Nat → List Nat
  | 0, _ => []
  | w + 1, v => toBE w (v / 256) ++ [v % 256]

/-- Big-endian byte decoding, the inverse direction of `toBE`. -/
def fromBE (l : List Nat) : Nat :=
  l.foldl (fun a b => a * 256 + b) 0

/-- Specification-style big-endian byte list: byte `i` is the coefficient of
`256 ^ (w - 1 - i)`. Used to state that the codec stores fields big-endian. -/
def bigEndianSpec (w v : Nat) : List Nat :=
  (List.range w).map (fun i => v / 256 ^ (w - 1 - i) % 256)

/-- Modelled from the spec: `HDP_HEADER_BYTE_LEN` lives in `citadel_proto`'s
constants module, which is absent from the excerpt. The spec fixes the header
length as the compile-time size of `HdpHeader` (§3), i.e. the 64 bytes of its
twelve packed `repr(C)` network-endian fields. -/
def HDP_HEADER_BYTE_LEN : Nat := 64

/-- Primary command code, packet.rs `packet_flags::cmd::primary`. -/
def packet_flags.cmd.primary.KEEP_ALIVE : Nat := 0

/-- Primary command code, packet.rs `packet_flags::cmd::primary`. -/
def packet_flags.cmd.primary.DO_CONNECT : Nat := 1

/-- Primary command code, packet.rs `packet_flags::cmd::primary`. -/
def packet_flags.cmd.primary.GROUP_PACKET : Nat := 2

/-- Primary command code, packet.rs `packet_flags::cmd::primary`. -/
def packet_flags.cmd.primary.DO_REGISTER : Nat := 3

/-- Primary command code, packet.rs `packet_flags::cmd::primary`. -/
def packet_flags.cmd.primary.DO_DISCONNECT : Nat := 4

/-- Primary command code, packet.rs `packet_flags::cmd::primary`. -/
def packet_flags.cmd.primary.DO_DRILL_UPDATE : Nat := 5

/-- Primary command code, packet.rs `packet_flags::cmd::primary`. -/
def packet_flags.cmd.primary.DO_DEREGISTER : Nat := 6

/-- Primary command code, packet.rs `packet_flags::cmd::primary`. -/
def packet_flags.cmd.primary.DO_PRE_CONNECT : Nat := 7

/-- Primary command code, packet.rs `packet_flags::cmd::primary`. -/
def packet_flags.cmd.primary.PEER_CMD : Nat := 8

/-- Primary command code, packet.rs `packet_flags::cmd::primary`. -/
def packet_flags.cmd.primary.FILE : Nat := 9

/-- Primary command code, packet.rs `packet_flags::cmd::primary`. -/
def packet_flags.cmd.primary.UDP : Nat := 10

/-- Primary command code, packet.rs `packet_flags::cmd::primary`. -/
def packet_flags.cmd.primary.HOLE_PUNCH : Nat := 11

/-- The HDP packet header, packet.rs lines 145-172. Single-byte fields are
naturals below 256; the `U32/U64/U128<NetworkEndian>` fields are naturals
below the corresponding power of two; the `I64` timestamp is an `Int` in the
`i64` range. Bounds are collected in `HdpHeader.Valid`. -/
structure HdpHeader where
  cmd_primary : Nat
  cmd_aux : Nat
  algorithm : Nat
  security_level : Nat
  protocol_version : Nat
  context_info : Nat
  group : Nat
  wave_id : Nat
  session_cid : Nat
  drill_version : Nat
  timestamp : Int
  target_cid : Nat
deriving DecidableEq

/-- Field bounds imposed by the Rust field types of `HdpHeader`. -/
def HdpHeader.Valid (h : HdpHeader) : Prop :=
  h.cmd_primary < 256 ∧ h.cmd_aux < 256 ∧ h.algorithm < 256 ∧ h.security_level < 256 ∧
  h.protocol_version < 2 ^ 32 ∧ h.context_info < 2 ^ 128 ∧ h.group < 2 ^ 64 ∧
  h.wave_id < 2 ^ 32 ∧ h.session_cid < 2 ^ 64 ∧ h.drill_version < 2 ^ 32 ∧
  -(2 ^ 63) ≤ h.timestamp ∧ h.timestamp < 2 ^ 63 ∧ h.target_cid < 2 ^ 64

instance (h : HdpHeader) : Decidable h.Valid := by
  unfold HdpHeader.Valid; infer_instance

/-- Two's-complement `u64` image of an `i64`, the value whose 8 big-endian
bytes `zerocopy`'s `I64<NetworkEndian>` stores. -/
def encTimestamp (t : Int) : Nat := (t % (2 : Int) ^ 64).toNat

/-- Decode of the stored 8-byte value back into the signed `i64`. -/
def decTimestamp (n : Nat) : Int :=
  if n < 2 ^ 63 then (n : Int) else (n : Int) - 2 ^ 64

/-- Byte image of the header, `zerocopy::AsBytes` on the packed `repr(C)`
struct: each field's big-endian bytes at its declared offset, no padding. -/
def HdpHeader.as_bytes (h : HdpHeader) : List Nat :=
  toBE 1 h.cmd_primary ++ (toBE 1 h.cmd_aux ++ (toBE 1 h.algorithm ++ (toBE 1 h.security_level ++
    (toBE 4 h.protocol_version ++ (toBE 16 h.context_info ++ (toBE 8 h.group ++ (toBE 4 h.wave_id ++
    (toBE 8 h.session_cid ++ (toBE 4 h.drill_version ++ (toBE 8 (encTimestamp h.timestamp) ++
    toBE 8 h.target_cid))))))))))

/-- packet.rs `HdpHeader::as_packet`: a fresh buffer holding the header bytes. -/
def HdpHeader.as_packet (h : HdpHeader) : List Nat := h.as_bytes

/-- packet.rs `HdpHeader::inscribe_into`: appends the header bytes onto the
writer (`BufMut::put_slice`). -/
def HdpHeader.inscribe_into (h : HdpHeader) (writer : List Nat) : List Nat :=
  writer ++ h.as_bytes

/-- Big-endian read of `w` bytes off the front of a buffer, returning the
value and the remaining bytes. -/
def readBE (w : Nat) (l : List Nat) : Nat × List Nat :=
  (fromBE (l.take w), l.drop w)

/-- Field-by-field interpretation of a 64-byte prefix as an `HdpHeader`, the
view `zerocopy::LayoutVerified` gives over the prefix. -/
def headerOfBytes (l : List Nat) : HdpHeader :=
  let r1 := readBE 1 l
  let r2 := readBE 1 r1.2
  let r3 := readBE 1 r2.2
  let r4 := readBE 1 r3.2
  let r5 := readBE 4 r4.2
  let r6 := readBE 16 r5.2
  let r7 := readBE 8 r6.2
  let r8 := readBE 4 r7.2
  let r9 := readBE 8 r8.2
  let r10 := readBE 4 r9.2
  let r11 := readBE 8 r10.2
  let r12 := readBE 8 r11.2
  { cmd_primary := r1.1, cmd_aux := r2.1, algorithm := r3.1, security_level := r4.1,
    protocol_version := r5.1, context_info := r6.1, group := r7.1, wave_id := r8.1,
    session_cid := r9.1, drill_version := r10.1, timestamp := decTimestamp r11.1,
    target_cid := r12.1 }

/-- packet.rs `HdpPacket`: a byte buffer plus the remote peer address (kept
abstract as a type parameter) and the local port. -/
structure HdpPacket (α : Type) where
  packet : List Nat
  remote_peer : α
  local_port : Nat

/-- packet.rs `HdpPacket::new_recv`. -/
def HdpPacket.new_recv {α : Type} (packet : List Nat) (remote_peer : α) (local_port : Nat) :
    HdpPacket α :=
  { packet := packet, remote_peer := remote_peer, local_port := local_port }

/-- packet.rs `HdpPacket::parse`, i.e. `LayoutVerified::new_from_prefix`: the
header view over the first `HDP_HEADER_BYTE_LEN` bytes and the remaining
payload, or `none` when the buffer is shorter than the header (the struct is
`Unaligned`, so length is the only way the prefix cast can fail). -/
def HdpPacket.parse {α : Type} (p : HdpPacket α) : Option (HdpHeader × List Nat) :=
  if HDP_HEADER_BYTE_LEN ≤ p.packet.length then
    some (headerOfBytes (p.packet.take HDP_HEADER_BYTE_LEN), p.packet.drop HDP_HEADER_BYTE_LEN)
  else none

/-- packet.rs `HdpPacket::get_length`. -/
def HdpPacket.get_length {α : Type} (p : HdpPacket α) : Nat := p.packet.length

/-- packet.rs `impl HdpBuffer for BytesMut`, `split_to`: returns the prefix
`[0, idx)`, the buffer keeps `[idx, len)` (first component returned value,
second component buffer afterwards). -/
def bytesMutSplitTo (buf : List Nat) (idx : Nat) : List Nat × List Nat :=
  (buf.take idx, buf.drop idx)

/-- Rust `Vec::split_off(idx)`: the vector keeps `[0, idx)` (first component)
and the call returns the tail `[idx, len)` (second component). -/
def vecSplitOff (v : List Nat) (idx : Nat) : List Nat × List Nat :=
  (v.take idx, v.drop idx)

/-- packet.rs `impl HdpBuffer for Vec<u8>`, `split_to`: `split_off` followed
by `mem::swap(self, &mut tail)`, so the head is returned (first component)
and the tail is left in place as the new buffer (second component). -/
def vecSplitTo (v : List Nat) (idx : Nat) : List Nat × List Nat :=
  let r := vecSplitOff v idx
  let self0 := r.1
  let tail0 := r.2
  let self1 := tail0
  let tail1 := self0
  (tail1, self1)

/-- packet.rs `HdpPacket::decompose` over the `BytesMut` buffer: `split_to`
at the header length, freeze the header slice (identity on the byte list),
and return header bytes, payload, remote peer and local port. -/
def HdpPacket.decompose {α : Type} (p : HdpPacket α) : List Nat × List Nat × α × Nat :=
  let r := bytesMutSplitTo p.packet HDP_HEADER_BYTE_LEN
  (r.1, r.2, p.remote_peer, p.local_port)

/-- packet.rs `HdpPacket::decompose` over the `Vec<u8>` buffer implementation
of `HdpBuffer` (`freeze` is the identity there). -/
def HdpPacket.decomposeVec {α : Type} (p : HdpPacket α) : List Nat × List Nat × α × Nat :=
  let r := vecSplitTo p.packet HDP_HEADER_BYTE_LEN
  (r.1, r.2, p.remote_peer, p.local_port)

/-- packet.rs `cipher_inner`: forward direction `c = (c + a) XOR b` with
wrapping `u8` addition, inverse direction `c = (c XOR b) - a` with wrapping
`u8` subtraction. -/
def cipher_inner (a b : Nat) (inv : Bool) (c : Nat) : Nat :=
  if inv then ((c ^^^ b) + 256 - a % 256) % 256
  else ((c + a) % 256) ^^^ b

/-- The `zip(cycle).zip(header).for_each` loop of packet.rs `apply_cipher`:
rewrites the next `n` bytes of the list, pairing position `i` with key bytes
`k0[i mod 8]` and `k1[i mod 8]`, and leaves the rest untouched. -/
def cipherRun (k0 k1 : List Nat) (inv : Bool) : Nat → Nat → List Nat → List Nat
  | _, 0, l => l
  | _, _ + 1, [] => []
  | i, n + 1, c :: rest =>
    cipher_inner (k0.getD (i % 8) 0) (k1.getD (i % 8) 0) inv c ::
      cipherRun k0 k1 inv (i + 1) n rest

/-- packet.rs `apply_cipher`: splits the 16 big-endian bytes of the 128-bit
key into two 8-byte halves and ciphers exactly the `HDP_HEADER_BYTE_LEN`
prefix of the packet; `none` models the panic of `&mut packet[..64]` on a
shorter packet. -/
def apply_cipher (val : Nat) (inv : Bool) (packet : List Nat) : Option (List Nat) :=
  if HDP_HEADER_BYTE_LEN ≤ packet.length then
    some (cipherRun ((toBE 16 val).take 8) ((toBE 16 val).drop 8) inv 0
      HDP_HEADER_BYTE_LEN packet)
  else none

/-- packet.rs `u64s_to_u128`: places the 8 big-endian bytes of `val0` at
positions 0-7 and those of `val1` at positions 8-15, then reads the 16 bytes
back as a big-endian `u128`. -/
def u64s_to_u128 (val0 val1 : Nat) : Nat :=
  fromBE (toBE 8 val0 ++ toBE 8 val1)

/-- Rust `bytes::Buf::get_u64`: big-endian read of the first 8 bytes,
advancing the buffer. -/
def get_u64 (packet : List Nat) : Nat × List Nat :=
  (fromBE (packet.take 8), packet.drop 8)

/-- packet.rs `HeaderObfuscator`: the per-connection cell holding the 128-bit
header-obfuscation key once it is known. -/
structure HeaderObfuscator where
  inner : Option Nat
deriving DecidableEq

/-- packet.rs `HeaderObfuscator::on_packet_received`. Returns the state
afterwards, the packet buffer afterwards (`none` models the panic of
`apply_cipher` on a short packet), and the `Option<()>` result. With a key
stored the packet is deciphered and `some ()` returned; with no key stored a
packet of length in `[16, HDP_HEADER_BYTE_LEN)` is consumed as the
key-exchange packet (its first 16 bytes read as two big-endian `u64`s and
stored via `u64s_to_u128`), anything else is discarded, and `none` is
returned either way. -/
def HeaderObfuscator.on_packet_received (s : HeaderObfuscator) (packet : List Nat) :
    HeaderObfuscator × Option (List Nat) × Option Unit :=
  match s.inner with
  | some val => (s, apply_cipher val true packet, some ())
  | none =>
    if 16 ≤ packet.length ∧ packet.length < HDP_HEADER_BYTE_LEN then
      let r0 := get_u64 packet
      let r1 := get_u64 r0.2
      ({ inner := some (u64s_to_u128 r0.1 r1.1) }, some r1.2, none)
    else
      (s, some packet, none)

/-- citadel_user/src/misc.rs `AccountError`. -/
inductive AccountError where
  | IoError (msg : String)
  | ClientExists (cid : Nat)
  | ClientNonExists (cid : Nat)
  | ServerExists (cid : Nat)
  | ServerNonExists (cid : Nat)
  | InvalidUsername
  | InvalidPassword
  | Disengaged (cid : Nat)
  | Generic (msg : String)
deriving DecidableEq

def msgUsernameLen : String := "Username must be between 3 and 37 characters"

def msgUsernameSpace : String := "Username cannot contain spaces. Use a period instead"

def msgPasswordLen : String := "Password must be between 7 and 17 characters"

def msgPasswordSpace : String := "Password cannot contain spaces"

def msgNameLen : String := "Full name must be between 2 and 77 characters"

def msgNoPeers : String := "No peers exist locally"

def msgEmpty : String := "Empty value"

/-- citadel_user/src/misc.rs credential length bound. -/
def MIN_PASSWORD_LENGTH : Nat := 7

/-- citadel_user/src/misc.rs credential length bound. -/
def MAX_PASSWORD_LENGTH : Nat := 17

/-- citadel_user/src/misc.rs credential length bound. -/
def MIN_USERNAME_LENGTH : Nat := 3

/-- citadel_user/src/misc.rs credential length bound. -/
def MAX_USERNAME_LENGTH : Nat := 37

/-- citadel_user/src/misc.rs credential length bound. -/
def MIN_NAME_LENGTH : Nat := 2

/-- citadel_user/src/misc.rs credential length bound. -/
def MAX_NAME_LENGTH : Nat := 77

/-- UTF-8 byte of the space character, the byte `str::contains(' ')` looks
for. Strings are modelled as their UTF-8 byte lists, matching Rust
`str::len` (bytes) and the space search. -/
def SPACE_BYTE : Nat := 32

/-- The `if let Some(password)` block of `check_credential_formatting`
(citadel_user/src/misc.rs lines 91-104): no password, no check. -/
def checkPasswordBlock (password : Option (List Nat)) : Except AccountError Unit :=
  match password with
  | none => Except.ok ()
  | some pw =>
    if pw.length < MIN_PASSWORD_LENGTH ∨ pw.length > MAX_PASSWORD_LENGTH then
      Except.error (AccountError.Generic msgPasswordLen)
    else if SPACE_BYTE ∈ pw then
      Except.error (AccountError.Generic msgPasswordSpace)
    else Except.ok ()

/-- citadel_user/src/misc.rs `check_credential_formatting`, on UTF-8 byte
lists: username length and space checks, then the optional password block,
then the full-name length check. -/
def check_credential_formatting (username : List Nat) (password : Option (List Nat))
    (full_name : List Nat) : Except AccountError Unit :=
  if username.length < MIN_USERNAME_LENGTH ∨ username.length > MAX_USERNAME_LENGTH then
    Except.error (AccountError.Generic msgUsernameLen)
  else if SPACE_BYTE ∈ username then
    Except.error (AccountError.Generic msgUsernameSpace)
  else
    match checkPasswordBlock password with
    | Except.error e => Except.error e
    | Except.ok _ =>
      if full_name.length < MIN_NAME_LENGTH ∨ full_name.length > MAX_NAME_LENGTH then
        Except.error (AccountError.Generic msgNameLen)
      else Except.ok ()

/-- Modelled from the spec: `FcmProcessorResult` lives in
hyxe_user/src/external_services/fcm/fcm_packet_processor/mod.rs, absent from
the excerpt; §6 describes outcomes such as "requires save" consumed by the
push collaborator. -/
inductive FcmProcessorResult where
  | Void
  | RequiresSave
deriving DecidableEq

/-- Modelled from the spec: `PeerSessionCrypto` lives in the external
`hyxe_crypt` crate, absent from the excerpt. Per §4.4/§5 it carries the
per-session rotation lock (`update_in_progress`), a record of which side set
it, and key-version bookkeeping. -/
structure PeerSessionCrypto where
  update_in_progress : Bool
  lock_set_by_alice : Option Bool
  latest_usable_version : Nat
deriving DecidableEq

/-- Modelled from the spec: `PeerSessionCrypto::maybe_unlock` lives in the
external `hyxe_crypt` crate, absent from the excerpt. Per §4.4, on
TRUNCATE_ACK the rotation lock is released unconditionally; the
`requires_locked_by_alice` flag (passed as `false` there) is the only guard
that can make the unlock refuse. -/
def PeerSessionCrypto.maybe_unlock (s : PeerSessionCrypto)
    (requires_locked_by_alice : Bool) : Option PeerSessionCrypto :=
  if requires_locked_by_alice ∧ ¬ (s.lock_set_by_alice.getD false) then none
  else some { s with update_in_progress := false, lock_set_by_alice := none }

/-- Modelled from the spec: `EmptyOptional::map_empty_err` lives in
hyxe_user/src/misc.rs, absent from the excerpt; it turns an empty `Option`
into a typed `AccountError`. -/
def map_empty_err {β : Type} (o : Option β) : Except AccountError β :=
  match o with
  | some v => Except.ok v
  | none => Except.error (AccountError.Generic msgEmpty)

/-- truncate_ack.rs `process`: unconditionally unlock the session crypto
(`maybe_unlock(false)`), log the truncated version if one was supplied, and
return `RequiresSave`. State passing replaces the `&mut` argument: the
returned pair carries the session crypto afterwards. -/
def truncate_ack_process (endpoint_crypto : PeerSessionCrypto)
    (truncate_vers : Option Nat) : Except AccountError (PeerSessionCrypto × FcmProcessorResult) :=
  match map_empty_err (endpoint_crypto.maybe_unlock false) with
  | Except.error e => Except.error e
  | Except.ok c =>
    match truncate_vers with
    | some _ => Except.ok (c, FcmProcessorResult.RequiresSave)
    | none => Except.ok (c, FcmProcessorResult.RequiresSave)

/-- Modelled from the spec: `ClientNetworkAccount` and its
`get_hyperlan_peers_with_fcm_keys` live outside the excerpt; §6 describes the
store resolving mutual-peer relationships with optional FCM keys. Peer
entries are kept abstract as a type parameter. -/
structure CNAC (π : Type) where
  get_hyperlan_peers_with_fcm_keys : List Nat → Option (List π)

/-- Modelled from the spec: the persistence collaborator of §6, reduced to
the one lookup `get_hyperlan_peers_with_fcm_keys_as_client` consults
(`get_cnac_by_cid`, a fallible lookup of the account by cid). -/
structure Backend (π : Type) where
  get_cnac_by_cid : Nat → Except AccountError (Option (CNAC π))

/-- backend/mod.rs default method
`BackendConnection::get_hyperlan_peers_with_fcm_keys_as_client` (lines
158-165): empty peer list short-circuits to `Ok(vec![])`; otherwise the
account is looked up by cid, a missing account is the typed
`ClientNonExists` error, and a `None` peer result is a `Generic` error. -/
def get_hyperlan_peers_with_fcm_keys_as_client {π : Type} (b : Backend π)
    (implicated_cid : Nat) (peers : List Nat) : Except AccountError (List π) :=
  if peers.isEmpty then Except.ok []
  else
    match b.get_cnac_by_cid implicated_cid with
    | Except.error e => Except.error e
    | Except.ok none => Except.error (AccountError.ClientNonExists implicated_cid)
    | Except.ok (some cnac) =>
      match cnac.get_hyperlan_peers_with_fcm_keys peers with
      | none => Except.error (AccountError.Generic msgNoPeers)
      | some r => Except.ok r

/-- Concrete header used to exercise the codec theorems on a closed input. -/
def sampleHeader : HdpHeader :=
  { cmd_primary := 2, cmd_aux := 1, algorithm := 0, security_level := 3,
    protocol_version := 70000, context_info := 123456789012345678901234567890,
    group := 11, wave_id := 9, session_cid := 77, drill_version := 5,
    timestamp := -12345, target_cid := 42 }

/-- Concrete backend whose account lookup finds nothing, used to exercise the
backend theorems on a closed input. -/
def sampleBackend : Backend Nat :=
  { get_cnac_by_cid := fun _ => Except.ok none }

end Citadel

namespace Citadel

theorem length_toBE (w v : Nat) : (toBE w v).length = w := by
  induction w generalizing v with
  | zero => rfl
  | succ w ih => simp [toBE, ih]

theorem mem_toBE_lt (w v : Nat) : ∀ b ∈ toBE w v, b < 256 := by
  induction w generalizing v with
  | zero => intro b hb; simp [toBE] at hb
  | succ w ih =>
    intro b hb
    simp only [toBE, List.mem_append, List.mem_singleton] at hb
    rcases hb with hb | hb
    · exact ih (v / 256) b hb
    · subst hb; exact Nat.mod_lt _ (by norm_num)

theorem foldl_fromBE (l : List Nat) :
    ∀ a, l.foldl (fun a b => a * 256 + b) a = a * 256 ^ l.length + fromBE l := by
  induction l with
  | nil => intro a; simp [fromBE]
  | cons x xs ih =>
    intro a
    rw [List.foldl_cons, ih (a * 256 + x), List.length_cons]
    have h2 : fromBE (x :: xs) = x * 256 ^ xs.length + fromBE xs := by
      have h3 := ih x
      simp only [fromBE, List.foldl_cons, Nat.zero_mul, Nat.zero_add] at h3 ⊢
      exact h3
    rw [h2]
    ring

theorem fromBE_append (l₁ l₂ : List Nat) :
    fromBE (l₁ ++ l₂) = fromBE l₁ * 256 ^ l₂.length + fromBE l₂ := by
  show List.foldl _ 0 (l₁ ++ l₂) = _
  rw [List.foldl_append]
  exact foldl_fromBE l₂ _

theorem fromBE_toBE (w v : Nat) : fromBE (toBE w v) = v % 256 ^ w := by
  induction w generalizing v with
  | zero => simp [toBE, fromBE, Nat.mod_one]
  | succ w ih =>
    rw [toBE, fromBE_append, ih]
    simp only [List.length_singleton, pow_one]
    have h1 : fromBE [v % 256] = v % 256 := by simp [fromBE]
    rw [h1]
    have h2 : (256 : Nat) ^ (w + 1) = 256 * 256 ^ w := by ring
    rw [h2, Nat.mod_mul]
    ring

theorem toBE_fromBE (l : List Nat) (hlt : ∀ b ∈ l, b < 256) :
    toBE l.length (fromBE l) = l := by
  induction l using List.reverseRecOn with
  | nil => simp [toBE, fromBE]
  | append_singleton xs x ih =>
    have hx : x < 256 := by
      apply hlt; simp
    have hxs : ∀ b ∈ xs, b < 256 := by
      intro b hb; apply hlt; simp [hb]
    rw [List.length_append, List.length_singleton, toBE]
    rw [fromBE_append]
    have hfx : fromBE [x] = x := by simp [fromBE]
    rw [hfx, List.length_singleton, pow_one]
    have hdiv : (fromBE xs * 256 + x) / 256 = fromBE xs := by
      omega
    have hmod : (fromBE xs * 256 + x) % 256 = x := by
      omega
    rw [hdiv, hmod, ih hxs]

theorem toBE_eq_bigEndianSpec (w v : Nat) : toBE w v = bigEndianSpec w v := by
  induction w generalizing v with
  | zero => rfl
  | succ w ih =>
    rw [toBE, ih, bigEndianSpec, bigEndianSpec, List.range_succ, List.map_append]
    congr 1
    · apply List.map_congr_left
      intro i hi
      rw [List.mem_range] at hi
      rw [Nat.div_div_eq_div_mul]
      have : 256 * 256 ^ (w - 1 - i) = 256 ^ (w + 1 - 1 - i) := by
        rw [← pow_succ']
        congr 1
        omega
      rw [this]
    · simp

theorem length_as_bytes (h : HdpHeader) : h.as_bytes.length = 64 := by
  simp [HdpHeader.as_bytes, length_toBE]

theorem encTimestamp_lt (t : Int) : encTimestamp t < 2 ^ 64 := by
  unfold encTimestamp
  have e1 : (2 : Int) ^ 64 = 18446744073709551616 := by norm_num
  have h2 := Int.emod_nonneg t (by norm_num : (2 : Int) ^ 64 ≠ 0)
  have h3 := Int.emod_lt_of_pos t (by positivity : (0 : Int) < 2 ^ 64)
  rw [e1] at h2 h3
  show (t % (2 : Int) ^ 64).toNat < 2 ^ 64
  rw [e1]
  omega

theorem decTimestamp_encTimestamp (t : Int) (hlo : -(2 ^ 63) ≤ t) (hhi : t < 2 ^ 63) :
    decTimestamp (encTimestamp t) = t := by
  unfold decTimestamp encTimestamp
  have e1 : (2 : Int) ^ 64 = 18446744073709551616 := by norm_num
  have e2 : (2 : Int) ^ 63 = 9223372036854775808 := by norm_num
  have e3 : (2 : Nat) ^ 63 = 9223372036854775808 := by norm_num
  have h2 := Int.emod_nonneg t (by norm_num : (2 : Int) ^ 64 ≠ 0)
  have h3 := Int.emod_lt_of_pos t (by positivity : (0 : Int) < 2 ^ 64)
  have h4 : t % (2 : Int) ^ 64 = t ∨ t % (2 : Int) ^ 64 = t + 2 ^ 64 := by
    rw [e1] at h2 h3 ⊢
    rw [e2] at hhi
    rw [e2] at hlo
    omega
  rw [e2] at hhi hlo
  rw [e1] at h2 h3 h4 ⊢
  rcases h4 with h4 | h4 <;> rw [h4] <;> split <;> rename_i hs <;> rw [e3] at hs <;> omega

theorem readBE_toBE (w v : Nat) (rest : List Nat) (hv : v < 256 ^ w) :
    readBE w (toBE w v ++ rest) = (v, rest) := by
  unfold readBE
  rw [List.take_left' (length_toBE w v), List.drop_left' (length_toBE w v)]
  rw [fromBE_toBE, Nat.mod_eq_of_lt hv]

theorem readBE_toBE_exact (w v : Nat) (hv : v < 256 ^ w) :
    readBE w (toBE w v) = (v, []) := by
  unfold readBE
  rw [List.take_of_length_le (le_of_eq (length_toBE w v)),
    List.drop_eq_nil_of_le (le_of_eq (length_toBE w v))]
  rw [fromBE_toBE, Nat.mod_eq_of_lt hv]

theorem headerOfBytes_as_bytes (h : HdpHeader) (hv : h.Valid) :
    headerOfBytes h.as_bytes = h := by
  obtain ⟨h1, h2, h3, h4, h5, h6, h7, h8, h9, h10, h11, h12, h13⟩ := hv
  have e8 : (256 : Nat) ^ 1 = 256 := by norm_num
  have e32 : (256 : Nat) ^ 4 = 2 ^ 32 := by norm_num
  have e64 : (256 : Nat) ^ 8 = 2 ^ 64 := by norm_num
  have e128 : (256 : Nat) ^ 16 = 2 ^ 128 := by norm_num
  simp only [headerOfBytes, HdpHeader.as_bytes]
  rw [readBE_toBE 1 _ _ (by rw [e8]; exact h1)]
  dsimp only
  rw [readBE_toBE 1 _ _ (by rw [e8]; exact h2)]
  dsimp only
  rw [readBE_toBE 1 _ _ (by rw [e8]; exact h3)]
  dsimp only
  rw [readBE_toBE 1 _ _ (by rw [e8]; exact h4)]
  dsimp only
  rw [readBE_toBE 4 _ _ (by rw [e32]; exact h5)]
  dsimp only
  rw [readBE_toBE 16 _ _ (by rw [e128]; exact h6)]
  dsimp only
  rw [readBE_toBE 8 _ _ (by rw [e64]; exact h7)]
  dsimp only
  rw [readBE_toBE 4 _ _ (by rw [e32]; exact h8)]
  dsimp only
  rw [readBE_toBE 8 _ _ (by rw [e64]; exact h9)]
  dsimp only
  rw [readBE_toBE 4 _ _ (by rw [e32]; exact h10)]
  dsimp only
  rw [readBE_toBE 8 _ _ (by rw [e64]; exact encTimestamp_lt h.timestamp)]
  dsimp only
  rw [readBE_toBE_exact 8 _ (by rw [e64]; exact h13)]
  dsimp only
  rw [decTimestamp_encTimestamp h.timestamp h11 h12]

/-- C1: for every valid assignment of the header fields, composing with
`as_packet` and parsing back yields `some` of a view whose fields equal the
originals with an empty payload, and with any appended payload bytes the
parse yields the same fields plus exactly that payload. -/
theorem parse_as_packet_roundtrip {α : Type} (h : HdpHeader) (addr : α) (port : Nat)
    (payload : List Nat) (hv : h.Valid) :
    (HdpPacket.new_recv h.as_packet addr port).parse = some (h, []) ∧
    (HdpPacket.new_recv (h.as_packet ++ payload) addr port).parse = some (h, payload) := by
  have hlen := length_as_bytes h
  have hhb : HDP_HEADER_BYTE_LEN = 64 := rfl
  constructor
  · unfold HdpPacket.parse HdpPacket.new_recv HdpHeader.as_packet
    rw [hhb]
    rw [if_pos (le_of_eq hlen.symm)]
    rw [List.take_of_length_le (le_of_eq hlen), List.drop_eq_nil_of_le (le_of_eq hlen)]
    rw [headerOfBytes_as_bytes h hv]
  · unfold HdpPacket.parse HdpPacket.new_recv HdpHeader.as_packet
    rw [hhb]
    rw [if_pos (by rw [List.length_append, hlen]; omega)]
    rw [List.take_left' hlen, List.drop_left' hlen]
    rw [headerOfBytes_as_bytes h hv]

theorem parse_as_packet_roundtrip_witness :
    sampleHeader.Valid ∧
    (HdpPacket.new_recv sampleHeader.as_packet (0 : Nat) 25000).parse = some (sampleHeader, []) ∧
    (HdpPacket.new_recv (sampleHeader.as_packet ++ [9, 9, 9]) (0 : Nat) 25000).parse =
      some (sampleHeader, [9, 9, 9]) :=
  ⟨by decide, parse_as_packet_roundtrip sampleHeader (0 : Nat) 25000 [9, 9, 9] (by decide)⟩

theorem drop_pre_append (pre rest : List Nat) (a : Nat) (ha : pre.length = a) :
    (pre ++ rest).drop a = rest :=
  List.drop_left' ha

/-- C2: composing a header is total (the model is a total function and
`inscribe_into` appends exactly the header bytes), always yields exactly
`HDP_HEADER_BYTE_LEN` bytes, and stores every multi-byte field in big-endian
order at its declared offset (4, 8, 24, 32, 36, 44, 48, 56), with no padding
since the twelve field widths sum to the total length; the timestamp is
stored as the big-endian bytes of its two's-complement `u64` image. -/
theorem as_packet_layout (h : HdpHeader) :
    h.as_packet.length = HDP_HEADER_BYTE_LEN ∧
    (∀ w : List Nat, h.inscribe_into w = w ++ h.as_packet) ∧
    (h.as_packet.drop 4).take 4 = bigEndianSpec 4 h.protocol_version ∧
    (h.as_packet.drop 8).take 16 = bigEndianSpec 16 h.context_info ∧
    (h.as_packet.drop 24).take 8 = bigEndianSpec 8 h.group ∧
    (h.as_packet.drop 32).take 4 = bigEndianSpec 4 h.wave_id ∧
    (h.as_packet.drop 36).take 8 = bigEndianSpec 8 h.session_cid ∧
    (h.as_packet.drop 44).take 4 = bigEndianSpec 4 h.drill_version ∧
    (h.as_packet.drop 48).take 8 = bigEndianSpec 8 (encTimestamp h.timestamp) ∧
    (h.as_packet.drop 56).take 8 = bigEndianSpec 8 h.target_cid := by
  refine ⟨length_as_bytes h, fun w => rfl, ?_, ?_, ?_, ?_, ?_, ?_, ?_, ?_⟩
  · rw [show h.as_packet =
        (toBE 1 h.cmd_primary ++ (toBE 1 h.cmd_aux ++ (toBE 1 h.algorithm ++
          toBE 1 h.security_level))) ++
        (toBE 4 h.protocol_version ++ (toBE 16 h.context_info ++ (toBE 8 h.group ++
          (toBE 4 h.wave_id ++ (toBE 8 h.session_cid ++ (toBE 4 h.drill_version ++
          (toBE 8 (encTimestamp h.timestamp) ++ toBE 8 h.target_cid))))))) from by
      simp [HdpHeader.as_packet, HdpHeader.as_bytes, List.append_assoc]]
    rw [drop_pre_append _ _ 4 (by simp [length_toBE])]
    rw [List.take_left' (length_toBE 4 _), toBE_eq_bigEndianSpec]
  · rw [show h.as_packet =
        (toBE 1 h.cmd_primary ++ (toBE 1 h.cmd_aux ++ (toBE 1 h.algorithm ++
          (toBE 1 h.security_level ++ toBE 4 h.protocol_version)))) ++
        (toBE 16 h.context_info ++ (toBE 8 h.group ++ (toBE 4 h.wave_id ++
          (toBE 8 h.session_cid ++ (toBE 4 h.drill_version ++
          (toBE 8 (encTimestamp h.timestamp) ++ toBE 8 h.target_cid)))))) from by
      simp [HdpHeader.as_packet, HdpHeader.as_bytes, List.append_assoc]]
    rw [drop_pre_append _ _ 8 (by simp [length_toBE])]
    rw [List.take_left' (length_toBE 16 _), toBE_eq_bigEndianSpec]
  · rw [show h.as_packet =
        (toBE 1 h.cmd_primary ++ (toBE 1 h.cmd_aux ++ (toBE 1 h.algorithm ++
          (toBE 1 h.security_level ++ (toBE 4 h.protocol_version ++
          toBE 16 h.context_info))))) ++
        (toBE 8 h.group ++ (toBE 4 h.wave_id ++ (toBE 8 h.session_cid ++
          (toBE 4 h.drill_version ++ (toBE 8 (encTimestamp h.timestamp) ++
          toBE 8 h.target_cid))))) from by
      simp [HdpHeader.as_packet, HdpHeader.as_bytes, List.append_assoc]]
    rw [drop_pre_append _ _ 24 (by simp [length_toBE])]
    rw [List.take_left' (length_toBE 8 _), toBE_eq_bigEndianSpec]
  · rw [show h.as_packet =
        (toBE 1 h.cmd_primary ++ (toBE 1 h.cmd_aux ++ (toBE 1 h.algorithm ++
          (toBE 1 h.security_level ++ (toBE 4 h.protocol_version ++
          (toBE 16 h.context_info ++ toBE 8 h.group)))))) ++
        (toBE 4 h.wave_id ++ (toBE 8 h.session_cid ++ (toBE 4 h.drill_version ++
          (toBE 8 (encTimestamp h.timestamp) ++ toBE 8 h.target_cid)))) from by
      simp [HdpHeader.as_packet, HdpHeader.as_bytes, List.append_assoc]]
    rw [drop_pre_append _ _ 32 (by simp [length_toBE])]
    rw [List.take_left' (length_toBE 4 _), toBE_eq_bigEndianSpec]
  · rw [show h.as_packet =
        (toBE 1 h.cmd_primary ++ (toBE 1 h.cmd_aux ++ (toBE 1 h.algorithm ++
          (toBE 1 h.security_level ++ (toBE 4 h.protocol_version ++
          (toBE 16 h.context_info ++ (toBE 8 h.group ++ toBE 4 h.wave_id))))))) ++
        (toBE 8 h.session_cid ++ (toBE 4 h.drill_version ++
          (toBE 8 (encTimestamp h.timestamp) ++ toBE 8 h.target_cid))) from by
      simp [HdpHeader.as_packet, HdpHeader.as_bytes, List.append_assoc]]
    rw [drop_pre_append _ _ 36 (by simp [length_toBE])]
    rw [List.take_left' (length_toBE 8 _), toBE_eq_bigEndianSpec]
  · rw [show h.as_packet =
        (toBE 1 h.cmd_primary ++ (toBE 1 h.cmd_aux ++ (toBE 1 h.algorithm ++
          (toBE 1 h.security_level ++ (toBE 4 h.protocol_version ++
          (toBE 16 h.context_info ++ (toBE 8 h.group ++ (toBE 4 h.wave_id ++
          toBE 8 h.session_cid)))))))) ++
        (toBE 4 h.drill_version ++ (toBE 8 (encTimestamp h.timestamp) ++
          toBE 8 h.target_cid)) from by
      simp [HdpHeader.as_packet, HdpHeader.as_bytes, List.append_assoc]]
    rw [drop_pre_append _ _ 44 (by simp [length_toBE])]
    rw [List.take_left' (length_toBE 4 _), toBE_eq_bigEndianSpec]
  · rw [show h.as_packet =
        (toBE 1 h.cmd_primary ++ (toBE 1 h.cmd_aux ++ (toBE 1 h.algorithm ++
          (toBE 1 h.security_level ++ (toBE 4 h.protocol_version ++
          (toBE 16 h.context_info ++ (toBE 8 h.group ++ (toBE 4 h.wave_id ++
          (toBE 8 h.session_cid ++ toBE 4 h.drill_version))))))))) ++
        (toBE 8 (encTimestamp h.timestamp) ++ toBE 8 h.target_cid) from by
      simp [HdpHeader.as_packet, HdpHeader.as_bytes, List.append_assoc]]
    rw [drop_pre_append _ _ 48 (by simp [length_toBE])]
    rw [List.take_left' (length_toBE 8 _), toBE_eq_bigEndianSpec]
  · rw [show h.as_packet =
        (toBE 1 h.cmd_primary ++ (toBE 1 h.cmd_aux ++ (toBE 1 h.algorithm ++
          (toBE 1 h.security_level ++ (toBE 4 h.protocol_version ++
          (toBE 16 h.context_info ++ (toBE 8 h.group ++ (toBE 4 h.wave_id ++
          (toBE 8 h.session_cid ++ (toBE 4 h.drill_version ++
          toBE 8 (encTimestamp h.timestamp))))))))))) ++
        toBE 8 h.target_cid from by
      simp [HdpHeader.as_packet, HdpHeader.as_bytes, List.append_assoc]]
    rw [drop_pre_append _ _ 56 (by simp [length_toBE])]
    rw [List.take_of_length_le (le_of_eq (length_toBE 8 _)), toBE_eq_bigEndianSpec]

/-- C3: a packet whose buffer is shorter than the fixed header length parses
to `none` — a typed "no result", not a panic (the model is a total function
into `Option`), and `parse` takes the packet by shared reference, leaving the
buffer untouched. -/
theorem parse_short_gives_none {α : Type} (p : HdpPacket α)
    (hlen : p.packet.length < HDP_HEADER_BYTE_LEN) : p.parse = none := by
  unfold HdpPacket.parse
  rw [if_neg]
  omega

theorem parse_short_gives_none_witness :
    (HdpPacket.new_recv [0, 1, 2] (0 : Nat) 5).packet.length < HDP_HEADER_BYTE_LEN ∧
    (HdpPacket.new_recv [0, 1, 2] (0 : Nat) 5).parse = none :=
  ⟨by decide, parse_short_gives_none (HdpPacket.new_recv [0, 1, 2] (0 : Nat) 5) (by decide)⟩

/-- C4: for a received packet of at least header length, `decompose` yields a
header slice of exactly `HDP_HEADER_BYTE_LEN` bytes and a payload of the
remaining length whose concatenation is the original packet, together with
the remote address and local port supplied to `new_recv`; the `Vec<u8>`
implementation behaves identically, its `split_to` returning the prefix
`[0, idx)` while the tail `[idx, len)` stays in the buffer. -/
theorem decompose_splits {α : Type} (buf : List Nat) (addr : α) (port : Nat)
    (hlen : HDP_HEADER_BYTE_LEN ≤ buf.length) :
    ((HdpPacket.new_recv buf addr port).decompose.1.length = HDP_HEADER_BYTE_LEN ∧
     (HdpPacket.new_recv buf addr port).decompose.2.1.length =
       buf.length - HDP_HEADER_BYTE_LEN ∧
     (HdpPacket.new_recv buf addr port).decompose.1 ++
       (HdpPacket.new_recv buf addr port).decompose.2.1 = buf ∧
     (HdpPacket.new_recv buf addr port).decompose.2.2.1 = addr ∧
     (HdpPacket.new_recv buf addr port).decompose.2.2.2 = port) ∧
    (HdpPacket.new_recv buf addr port).decomposeVec =
      (HdpPacket.new_recv buf addr port).decompose ∧
    (∀ (v : List Nat) (idx : Nat), vecSplitTo v idx = (v.take idx, v.drop idx)) := by
  refine ⟨⟨?_, ?_, ?_, rfl, rfl⟩, rfl, fun v idx => rfl⟩
  · show (buf.take HDP_HEADER_BYTE_LEN).length = HDP_HEADER_BYTE_LEN
    rw [List.length_take]
    exact Nat.min_eq_left hlen
  · show (buf.drop HDP_HEADER_BYTE_LEN).length = buf.length - HDP_HEADER_BYTE_LEN
    exact List.length_drop _ _
  · exact List.take_append_drop _ _

theorem decompose_splits_witness :
    HDP_HEADER_BYTE_LEN ≤ (List.replicate 70 1).length ∧
    (HdpPacket.new_recv (List.replicate 70 1) (3 : Nat) 9).decompose.1 ++
      (HdpPacket.new_recv (List.replicate 70 1) (3 : Nat) 9).decompose.2.1 =
      List.replicate 70 1 :=
  ⟨by decide, (decompose_splits (List.replicate 70 1) (3 : Nat) 9 (by decide)).1.2.2.1⟩

/-- C5: the primary command codes are the closed set 0-11 with exactly the
literal values of packet.rs lines 10-25; being Lean definitions (Rust
`const`s), they cannot change at runtime. -/
theorem primary_codes_closed :
    ([packet_flags.cmd.primary.KEEP_ALIVE, packet_flags.cmd.primary.DO_CONNECT,
      packet_flags.cmd.primary.GROUP_PACKET, packet_flags.cmd.primary.DO_REGISTER,
      packet_flags.cmd.primary.DO_DISCONNECT, packet_flags.cmd.primary.DO_DRILL_UPDATE,
      packet_flags.cmd.primary.DO_DEREGISTER, packet_flags.cmd.primary.DO_PRE_CONNECT,
      packet_flags.cmd.primary.PEER_CMD, packet_flags.cmd.primary.FILE,
      packet_flags.cmd.primary.UDP, packet_flags.cmd.primary.HOLE_PUNCH] = List.range 12) ∧
    packet_flags.cmd.primary.KEEP_ALIVE = 0 ∧ packet_flags.cmd.primary.DO_CONNECT = 1 ∧
    packet_flags.cmd.primary.GROUP_PACKET = 2 ∧ packet_flags.cmd.primary.DO_REGISTER = 3 ∧
    packet_flags.cmd.primary.DO_DISCONNECT = 4 ∧ packet_flags.cmd.primary.DO_DRILL_UPDATE = 5 ∧
    packet_flags.cmd.primary.DO_DEREGISTER = 6 ∧ packet_flags.cmd.primary.DO_PRE_CONNECT = 7 ∧
    packet_flags.cmd.primary.PEER_CMD = 8 ∧ packet_flags.cmd.primary.FILE = 9 ∧
    packet_flags.cmd.primary.UDP = 10 ∧ packet_flags.cmd.primary.HOLE_PUNCH = 11 := by
  decide

/-- C6: processing TRUNCATE_ACK always succeeds, releases the rotation lock
(`update_in_progress` is false in the resulting state) and reports
`RequiresSave`; the outcome does not depend on whether a truncated version
number was supplied. `PeerSessionCrypto` and `maybe_unlock` are modelled from
the spec (the `hyxe_crypt` crate is outside the excerpt). -/
theorem truncate_ack_process_unlocks (c : PeerSessionCrypto) (tv : Option Nat) :
    ∃ c', truncate_ack_process c tv = Except.ok (c', FcmProcessorResult.RequiresSave) ∧
      c'.update_in_progress = false ∧
      truncate_ack_process c tv = truncate_ack_process c none := by
  refine ⟨{ c with update_in_progress := false, lock_set_by_alice := none }, ?_, rfl, ?_⟩
  · cases tv <;> rfl
  · cases tv <;> rfl

/-- C10: with an empty peer list the default backend method returns `Ok []`
for every backend (so without consulting the account store), and with a
non-empty peer list and no account for the cid it returns the typed error
`ClientNonExists cid` — never a panic and never an empty success. -/
theorem get_hyperlan_peers_as_client_spec {π : Type} (b : Backend π) (cid : Nat)
    (peers : List Nat) :
    (peers = [] → get_hyperlan_peers_with_fcm_keys_as_client b cid peers = Except.ok []) ∧
    (peers ≠ [] → b.get_cnac_by_cid cid = Except.ok none →
      get_hyperlan_peers_with_fcm_keys_as_client b cid peers =
        Except.error (AccountError.ClientNonExists cid)) := by
  constructor
  · intro he
    subst he
    rfl
  · intro hne hcnac
    unfold get_hyperlan_peers_with_fcm_keys_as_client
    rw [if_neg (by simpa [List.isEmpty_iff] using hne), hcnac]

/-- C9: the credential-format check succeeds exactly when the username is
3-37 bytes with no space, the full name is 2-77 bytes, and, when a password
is supplied, the password is 7-17 bytes with no space; a `none` password is
not constrained at all, and every rejection is a typed `AccountError` (the
model is a total function into `Except`). -/
theorem check_credential_formatting_iff (u : List Nat) (p : Option (List Nat))
    (f : List Nat) :
    check_credential_formatting u p f = Except.ok () ↔
      (3 ≤ u.length ∧ u.length ≤ 37 ∧ SPACE_BYTE ∉ u ∧
       2 ≤ f.length ∧ f.length ≤ 77 ∧
       (match p with
        | none => True
        | some pw => 7 ≤ pw.length ∧ pw.length ≤ 17 ∧ SPACE_BYTE ∉ pw)) := by
  rcases p with _ | pw
  · simp only [check_credential_formatting, checkPasswordBlock, MIN_USERNAME_LENGTH,
      MAX_USERNAME_LENGTH, MIN_NAME_LENGTH, MAX_NAME_LENGTH]
    split_ifs with hA hB hC
    · constructor
      · intro hcontr; simp at hcontr
      · rintro ⟨c1, c2, -, -, -, -⟩; exact absurd hA (by omega)
    · constructor
      · intro hcontr; simp at hcontr
      · rintro ⟨-, -, c3, -, -, -⟩; exact absurd hB c3
    · constructor
      · intro hcontr; simp at hcontr
      · rintro ⟨-, -, -, c4, c5, -⟩; exact absurd hC (by omega)
    · constructor
      · intro hok; exact ⟨by omega, by omega, hB, by omega, by omega, trivial⟩
      · intro hr; rfl
  · simp only [check_credential_formatting, checkPasswordBlock, MIN_USERNAME_LENGTH,
      MAX_USERNAME_LENGTH, MIN_NAME_LENGTH, MAX_NAME_LENGTH, MIN_PASSWORD_LENGTH,
      MAX_PASSWORD_LENGTH]
    split_ifs with hA hB hD hE hC
    · constructor
      · intro hcontr; simp at hcontr
      · rintro ⟨c1, c2, -, -, -, -⟩; exact absurd hA (by omega)
    · constructor
      · intro hcontr; simp at hcontr
      · rintro ⟨-, -, c3, -, -, -⟩; exact absurd hB c3
    · constructor
      · intro hcontr; simp at hcontr
      · rintro ⟨-, -, -, -, -, d1, d2, -⟩; exact absurd hD (by omega)
    · constructor
      · intro hcontr; simp at hcontr
      · rintro ⟨-, -, -, -, -, -, -, d3⟩; exact absurd hE d3
    · constructor
      · intro hcontr; simp at hcontr
      · rintro ⟨-, -, -, c4, c5, -⟩; exact absurd hC (by omega)
    · constructor
      · intro hok
        exact ⟨by omega, by omega, hB, by omega, by omega, by omega, by omega, hE⟩
      · intro hr; rfl

theorem check_credential_formatting_iff_witness :
    check_credential_formatting [97, 98, 99] (some [97, 98, 99, 100, 101, 102, 103])
      [106, 111] = Except.ok () :=
  (check_credential_formatting_iff [97, 98, 99] (some [97, 98, 99, 100, 101, 102, 103])
    [106, 111]).mpr (by decide)

theorem getD_lt_256 (l : List Nat) (hl : ∀ b ∈ l, b < 256) (n : Nat) : l.getD n 0 < 256 := by
  induction l generalizing n with
  | nil => simp only [List.getD_nil]; decide
  | cons x xs ih =>
    cases n with
    | zero => simpa [List.getD_cons_zero] using hl x (by simp)
    | succ n =>
      rw [List.getD_cons_succ]
      exact ih (fun b hb => hl b (by simp [hb])) n

theorem cipher_inner_inv (a b c : Nat) (ha : a < 256) (_hb : b < 256) (hc : c < 256) :
    cipher_inner a b true (cipher_inner a b false c) = c := by
  have h1 : cipher_inner a b false c = ((c + a) % 256) ^^^ b := rfl
  have h2 : ∀ x, cipher_inner a b true x = ((x ^^^ b) + 256 - a % 256) % 256 := fun x => rfl
  rw [h1, h2, Nat.xor_assoc, Nat.xor_self, Nat.xor_zero]
  omega

theorem cipherRun_inv (k0 k1 : List Nat) (hk0 : ∀ b ∈ k0, b < 256)
    (hk1 : ∀ b ∈ k1, b < 256) :
    ∀ (n i : Nat) (l : List Nat), (∀ b ∈ l, b < 256) →
      cipherRun k0 k1 true i n (cipherRun k0 k1 false i n l) = l := by
  intro n
  induction n with
  | zero => intro i l hl; rfl
  | succ n ih =>
    intro i l hl
    cases l with
    | nil => rfl
    | cons c rest =>
      simp only [cipherRun]
      rw [cipher_inner_inv _ _ _ (getD_lt_256 k0 hk0 _) (getD_lt_256 k1 hk1 _)
        (hl c (by simp))]
      rw [ih (i + 1) rest (fun b hb => hl b (by simp [hb]))]

theorem cipherRun_length (k0 k1 : List Nat) (inv : Bool) :
    ∀ (n i : Nat) (l : List Nat), (cipherRun k0 k1 inv i n l).length = l.length := by
  intro n
  induction n with
  | zero => intro i l; rfl
  | succ n ih =>
    intro i l
    cases l with
    | nil => rfl
    | cons c rest => simp only [cipherRun, List.length_cons, ih]

/-- C7: for every 128-bit key and every packet of at least header length
made of bytes, running the obfuscation cipher forward and then inverse
restores the original bytes; and applying forward twice with two different
keys is not the same as applying forward once with either key (shown on a
concrete packet of 64 zero bytes with keys 1 and `2 ^ 64`). -/
theorem apply_cipher_involution :
    (∀ (val : Nat) (pkt : List Nat), HDP_HEADER_BYTE_LEN ≤ pkt.length →
      (∀ b ∈ pkt, b < 256) →
      (apply_cipher val false pkt).bind (fun q => apply_cipher val true q) = some pkt) ∧
    (apply_cipher 1 false (List.replicate 64 0)).bind
      (fun q => apply_cipher (2 ^ 64) false q) ≠ apply_cipher 1 false (List.replicate 64 0) ∧
    (apply_cipher 1 false (List.replicate 64 0)).bind
      (fun q => apply_cipher (2 ^ 64) false q) ≠
        apply_cipher (2 ^ 64) false (List.replicate 64 0) := by
  refine ⟨?_, by decide, by decide⟩
  intro val pkt hlen hbytes
  unfold apply_cipher
  rw [if_pos hlen]
  show apply_cipher val true
    (cipherRun ((toBE 16 val).take 8) ((toBE 16 val).drop 8) false 0 HDP_HEADER_BYTE_LEN pkt) =
      some pkt
  unfold apply_cipher
  rw [if_pos (by rw [cipherRun_length]; exact hlen)]
  rw [cipherRun_inv ((toBE 16 val).take 8) ((toBE 16 val).drop 8)
    (fun b hb => mem_toBE_lt 16 val b (List.mem_of_mem_take hb))
    (fun b hb => mem_toBE_lt 16 val b (List.mem_of_mem_drop hb))
    HDP_HEADER_BYTE_LEN 0 pkt hbytes]

theorem apply_cipher_involution_witness :
    HDP_HEADER_BYTE_LEN ≤ (List.replicate 64 3).length ∧
    (∀ b ∈ List.replicate 64 3, b < 256) ∧
    (apply_cipher 123456789 false (List.replicate 64 3)).bind
      (fun q => apply_cipher 123456789 true q) = some (List.replicate 64 3) :=
  ⟨by decide, by decide,
    apply_cipher_involution.1 123456789 (List.replicate 64 3) (by decide) (by decide)⟩

theorem toBE_fromBE_of_length (l : List Nat) (w : Nat) (hw : l.length = w)
    (hl : ∀ b ∈ l, b < 256) : toBE w (fromBE l) = l := by
  subst hw
  exact toBE_fromBE l hl

theorem key_from_first16 (pkt : List Nat) (h16 : 16 ≤ pkt.length)
    (hb : ∀ b ∈ pkt, b < 256) :
    u64s_to_u128 (fromBE (pkt.take 8)) (fromBE ((pkt.drop 8).take 8)) =
      fromBE (pkt.take 16) := by
  unfold u64s_to_u128
  rw [toBE_fromBE_of_length _ 8 (by rw [List.length_take]; omega)
    (fun b hb2 => hb b (List.mem_of_mem_take hb2))]
  rw [toBE_fromBE_of_length _ 8 (by rw [List.length_take, List.length_drop]; omega)
    (fun b hb2 => hb b (List.mem_of_mem_drop (List.mem_of_mem_take hb2)))]
  rw [show (16 : Nat) = 8 + 8 from rfl, List.take_add]

/-- C8 counterexample: an 8-byte packet is shorter than the header length,
yet a keyless server discards it without storing any key (the state stays
`none`), contradicting the claim that every packet shorter than the header
length is treated as the key-exchange packet whose first 16 bytes are read. -/
theorem on_packet_received_short_not_key_exchange :
    (List.replicate 8 1).length < HDP_HEADER_BYTE_LEN ∧
    ((HeaderObfuscator.mk none).on_packet_received (List.replicate 8 1)).1 =
      HeaderObfuscator.mk none := by
  decide

/-- C8 (amended): a keyless server-side `HeaderObfuscator` treats exactly the
packets whose length lies in `[16, HDP_HEADER_BYTE_LEN)` as the key-exchange
packet — reading the first 16 bytes as two big-endian 8-byte halves and
storing the assembled 128-bit key, with no protocol result — while every
other packet, including those shorter than 16 bytes, is discarded as
malformed with the state unchanged. -/
theorem on_packet_received_keyless (pkt : List Nat) (hb : ∀ b ∈ pkt, b < 256) :
    (16 ≤ pkt.length → pkt.length < HDP_HEADER_BYTE_LEN →
      (HeaderObfuscator.mk none).on_packet_received pkt =
        (HeaderObfuscator.mk (some (fromBE (pkt.take 16))), some (pkt.drop 16), none)) ∧
    (pkt.length < 16 ∨ HDP_HEADER_BYTE_LEN ≤ pkt.length →
      (HeaderObfuscator.mk none).on_packet_received pkt =
        (HeaderObfuscator.mk none, some pkt, none)) := by
  constructor
  · intro h16 h64
    unfold HeaderObfuscator.on_packet_received
    dsimp only
    rw [if_pos ⟨h16, h64⟩]
    unfold get_u64
    dsimp only
    rw [key_from_first16 pkt h16 hb, List.drop_drop]
  · intro hout
    unfold HeaderObfuscator.on_packet_received
    dsimp only
    rw [if_neg]
    rcases hout with hshort | hlong
    · exact fun hc => absurd hc.1 (not_le.mpr hshort)
    · exact fun hc => absurd hc.2 (not_lt.mpr hlong)

theorem on_packet_received_keyless_witness :
    (∀ b ∈ List.replicate (20 : Nat) 7, b < 256) ∧
    16 ≤ (List.replicate (20 : Nat) 7).length ∧
    (List.replicate (20 : Nat) 7).length < HDP_HEADER_BYTE_LEN ∧
    (HeaderObfuscator.mk none).on_packet_received (List.replicate (20 : Nat) 7) =
      (HeaderObfuscator.mk (some (fromBE ((List.replicate (20 : Nat) 7).take 16))),
        some ((List.replicate (20 : Nat) 7).drop 16), none) :=
  ⟨by decide, by decide, by decide,
    (on_packet_received_keyless (List.replicate 20 7) (by decide)).1 (by decide) (by decide)⟩

theorem get_hyperlan_peers_as_client_spec_witness :
    get_hyperlan_peers_with_fcm_keys_as_client sampleBackend 7 [] = Except.ok [] ∧
    ([3] : List Nat) ≠ [] ∧
    sampleBackend.get_cnac_by_cid 7 = Except.ok none ∧
    get_hyperlan_peers_with_fcm_keys_as_client sampleBackend 7 [3] =
      Except.error (AccountError.ClientNonExists 7) :=
  ⟨(get_hyperlan_peers_as_client_spec sampleBackend 7 []).1 rfl, by decide, rfl,
    (get_hyperlan_peers_as_client_spec sampleBackend 7 [3]).2 (by decide) rfl⟩

end Citadel
